import Mathlib


/-!
# tar-cat: a shallow embedding of the archive composition code

The development follows `utils/utils.go` and the three commands `cmd/merge.go`,
`cmd/add.go` and `cmd/append.go`.

* Bytes are natural numbers, a byte string is a `List Nat`.
* A Go `error` is an `Option Err` (`none` is `nil`); Go's multiple results
  become tuples, with the mutated receiver in front.
* An `*os.File` is a value of `File`: its contents, its offset, and whether it
  is closed; methods return the new file.
* The operating system and the libraries the code calls but does not define
  (`net/http`, `compress/gzip`, `xz`, `archive/tar`) are the fields of `World`.
* A `tar.Writer` with the chain of writers under it is a `TarWriter`: the log
  of the operations that reached it, oldest first.
-/

namespace TarCat

/-! ## Errors -/

/-- A Go error value: `io.EOF`, which the code compares by identity, or any
other error, known by its message. -/
inductive Err where
  | EOF
  | other (msg : String)
  deriving DecidableEq, Repr

deriving instance DecidableEq for Except

/-- The method `err.Error()`. -/
def Err.Error : Err → String
  | .EOF => "EOF"
  | .other m => m

/-- The error `fmt.Errorf(msg)`. -/
def Errorf (msg : String) : Err := .other msg

/-! ## Files (`*os.File`) -/

/-- What `file.Stat()` and `os.Stat` report: `Name()` (a base name), `Size()`,
the mode bits, and whether the file is a symbolic link (never, for these
two calls, which follow links). -/
structure FileInfo where
  name : String
  size : Nat
  mode : Nat
  symlink : Bool
  deriving DecidableEq, Repr

/-- An open file description: the path it was opened with, the bytes of the
file, the offset of the next read or write, the mode bits, whether it supports
`Seek` (a pipe does not), whether `Close` has been called, and the number of
bytes read through it so far. -/
structure File where
  name : String
  data : List Nat
  pos : Nat
  mode : Nat
  seekable : Bool
  closed : Bool
  nread : Nat := 0
  deriving DecidableEq, Repr

def ErrClosed : Err := .other "file already closed"
def ErrIllegalSeek : Err := .other "illegal seek"
def ErrInvalid : Err := .other "invalid argument"

/-- The last element of a path, as in `FileInfo.Name()`: what follows the last
slash. -/
def baseName (path : String) : String :=
  String.mk ((path.toList.reverse.takeWhile (fun c => c != '/')).reverse)

/-- The function `filepath.Ext`: the suffix beginning at the final dot in the
final element of the path, empty when there is no dot. -/
def Ext (path : String) : String :=
  let last := path.toList.reverse.takeWhile (fun c => c != '/')
  if last.contains '.' then
    String.mk (('.' :: (last.takeWhile (fun c => c != '.')).reverse))
  else ""

/-- The method `file.Read(buf)` with `len(buf) = k`: up to `k` bytes from the
offset, `io.EOF` when none is left. -/
def File.Read (f : File) (k : Nat) : File × List Nat × Option Err :=
  if f.closed then (f, [], some ErrClosed)
  else if k = 0 then (f, [], none)
  else if f.data.length ≤ f.pos then (f, [], some .EOF)
  else
    let bs := (f.data.drop f.pos).take k
    ({ f with pos := f.pos + bs.length, nread := f.nread + bs.length }, bs, none)

/-- The method `file.Seek(offset, whence)`; `whence` is 0 (`io.SeekStart`),
1 (`io.SeekCurrent`) or 2 (`io.SeekEnd`). A negative resulting offset is an
error. -/
def File.Seek (f : File) (offset : Int) (whence : Nat) : File × Int × Option Err :=
  if f.closed then (f, 0, some ErrClosed)
  else if !f.seekable then (f, 0, some ErrIllegalSeek)
  else
    let base : Option Int :=
      match whence with
      | 0 => some 0
      | 1 => some (f.pos : Int)
      | 2 => some (f.data.length : Int)
      | _ => none
    match base with
    | none => (f, 0, some ErrInvalid)
    | some b =>
      if b + offset < 0 then (f, 0, some ErrInvalid)
      else ({ f with pos := (b + offset).toNat }, b + offset, none)

/-- The method `file.Close()`. -/
def File.Close (f : File) : File × Option Err :=
  if f.closed then (f, some ErrClosed) else ({ f with closed := true }, none)

/-- The method `file.Stat()`. -/
def File.Stat (f : File) : Except Err FileInfo :=
  if f.closed then .error ErrClosed
  else
    .ok { name := baseName f.name, size := f.data.length, mode := f.mode, symlink := false }

/-- The method `file.Write(bs)`: the bytes replace what is at the offset and
extend the file past its end (a gap is filled with zeros). -/
def File.Write (f : File) (bs : List Nat) : File × Option Err :=
  if f.closed then (f, some ErrClosed)
  else
    let head := f.data.take f.pos ++ List.replicate (f.pos - f.data.length) 0
    ({ f with data := head ++ bs ++ f.data.drop (f.pos + bs.length),
              pos := f.pos + bs.length }, none)

/-! ## Byte streams and the libraries -/

/-- An `io.Reader` read to its end: the bytes it delivers and the error, if
any, that ends it instead of `io.EOF`. -/
structure Stream where
  bytes : List Nat
  err : Option Err
  deriving DecidableEq, Repr

/-- A tar header (`tar.Header`), with the fields the code touches. -/
structure Header where
  name : String
  size : Nat
  mode : Nat
  linkname : String
  deriving DecidableEq, Repr

/-- One result of `tr.Next()` together with what reading the entry's body then
gives: an entry (its header, the body bytes delivered, the error that cuts the
body short if any) or an error. -/
inductive Item where
  | entry (hdr : Header) (body : List Nat) (rdErr : Option Err)
  | fail (e : Err)
  deriving DecidableEq, Repr

/-- One regular file of the file system: mode bits and contents. -/
structure Node where
  mode : Nat
  data : List Nat
  deriving DecidableEq, Repr

/-- An operation on the output chain (the tar writer, the compression writer
under it, the destination): the compression writer of a format was created,
a header was written, a body was copied whole, a body copy stopped after the
given bytes, the tar writer's `Close` wrote the end-of-archive marker, the
compression writer's `Close` finalized the stream. -/
inductive Ev where
  | filter (format : String)
  | header (h : Header)
  | body (bs : List Nat)
  | cutBody (bs : List Nat)
  | trailer
  | finalize
  deriving DecidableEq, Repr

/-- The environment: the file system, the standard streams, and the library
functions the code calls.
* `fs`: the regular files by path (`os.Open`, `os.Stat`).
* `createErr`: the error of `os.Create` on a path, if any.
* `openErr`: the error of `os.OpenFile(path, os.O_RDWR, ...)` on a path that
  was just written and closed, if any.
* `stdin`, `stdout`: `os.Stdin`, `os.Stdout`.
* `detect`: `http.DetectContentType`.
* `gunzip`, `unxz`: `gzip.NewReader` and `xz.NewReader` on the bytes left in
  a file; they fail at once on a bad header.
* `untar`: `tar.NewReader` over a stream, as the results of its `Next` calls.
* `faults`: how the output chain answers an operation, given the log so far:
  `none` accepts it, `some (k, e)` fails with `e` (for a body copy, after `k`
  bytes went through). -/
structure World where
  fs : String → Option Node
  createErr : String → Option Err
  openErr : String → Option Err
  stdin : File
  stdout : File
  detect : List Nat → String
  gunzip : List Nat → Except Err Stream
  unxz : List Nat → Except Err Stream
  untar : Stream → List Item
  faults : List Ev → Ev → Option (Nat × Err)

/-! ## utils.go: content types -/

def GzipCT : String := "application/x-gzip"
def TarCT : String := "application/octet-stream"
def XzCT : String := "application/xz-compressed"

def GetCTFromFormat (format : String) : String :=
  match format with
  | "xz" => TarCT
  | "none" => TarCT
  | "gzip" => GzipCT
  | _ => TarCT

/-- The 512-byte buffer `buff` after `file.Read(buff)` delivered `bs`. -/
def sniffBuffer (bs : List Nat) : List Nat :=
  bs ++ List.replicate (512 - bs.length) 0

/-- The function `ReadContentType`: returns the file as it is left, the
content type and the error. -/
def ReadContentType (W : World) (file : File) : File × String × Option Err :=
  match file.Read 512 with
  | (f1, _, some e) => ((f1.Close).1, "", some e)
  | (f1, bs, none) =>
    let ct := W.detect (sniffBuffer bs)
    match f1.Seek 0 0 with
    | (f2, _, some e) => ((f2.Close).1, ct, some e)
    | (f2, _, none) => (f2, ct, none)

/-- The function `CreateNewOutput` (`os.Create`): a new, empty file. -/
def CreateNewOutput (W : World) (path : String) : Except Err File :=
  match W.createErr path with
  | some e => .error e
  | none => .ok { name := path, data := [], pos := 0, mode := 438,
                  seekable := true, closed := false }

/-- What is left to read in a file. -/
def File.rest (f : File) : List Nat := f.data.drop f.pos

/-- The `switch ct` of `GetSeekedTar`: the reader the input is copied from. -/
def seekedReader (W : World) (ct ext : String) (input : File) : Except Err Stream :=
  if ct = GzipCT then W.gunzip input.rest
  else if ct = TarCT then
    if ext ≠ ".xz" then .ok ⟨input.rest, none⟩
    else W.unxz input.rest
  else .ok ⟨input.rest, none⟩

/-- The error `io.Copy` returns when its reader ends with `e`: the end of
the input is not an error. -/
def copyErr : Option Err → Option Err
  | some .EOF => none
  | e => e

/-- The call `io.Copy(output, reader)` onto a file. -/
def copyToFile (output : File) (reader : Stream) : File × Option Err :=
  match output.Write reader.bytes with
  | (output, some e) => (output, some e)
  | (output, none) => (output, copyErr reader.err)

/-- The call `os.OpenFile(closed.Name(), os.O_RDWR, os.ModePerm)` on the path
of a file just written and closed: it fails when the world says so (as it may
for the path of `os.Stdout`), and otherwise opens the file that was written, at
offset 0. -/
def osOpenFile (W : World) (closed : File) : Except Err File :=
  match W.openErr closed.name with
  | some e => .error e
  | none => .ok { closed with pos := 0, closed := false }

/-- The function `GetSeekedTar`. -/
def GetSeekedTar (W : World) (input output : File) (seek : Int) : Except Err File :=
  let ext := Ext input.name
  match ReadContentType W input with
  | (_, _, some e) => .error e
  | (input, ct, none) =>
    match seekedReader W ct ext input with
    | .error e => .error e
    | .ok reader =>
      match copyToFile output reader with
      | (_, some e) => .error e
      | (output, none) =>
        match output.Close with
        | (_, some e) => .error e
        | (output, none) =>
          match osOpenFile W output with
          | .error e => .error e
          | .ok out =>
            let seeker := if seek < 0 then 2 else 0
            match out.Seek seek seeker with
            | (_, _, some e) => .error e
            | (out, _, none) => .ok out

/-- The call `os.Open(pth)`. -/
def osOpen (W : World) (pth : String) : Except Err File :=
  match W.fs pth with
  | none => .error (.other ("open " ++ pth ++ ": no such file or directory"))
  | some n => .ok { name := pth, data := n.data, pos := 0, mode := n.mode,
                    seekable := true, closed := false }

/-- The call `os.Stat(pth)`. -/
def osStat (W : World) (pth : String) : Except Err FileInfo :=
  match W.fs pth with
  | none => .error (.other ("stat " ++ pth ++ ": no such file or directory"))
  | some n => .ok { name := baseName pth, size := n.data.length, mode := n.mode,
                    symlink := false }

def FileExistAndNotEmpty (file : Option File) : Bool :=
  match file with
  | none => false
  | some file =>
    match file.Stat with
    | .error _ => false
    | .ok fi => decide (fi.size > 0)

/-! ## utils.go: readers -/

/-- The type `Crdr`: the decoding reader and the file under it. -/
structure Crdr where
  Reader : Stream
  fin : File
  deriving DecidableEq, Repr

/-- The type `TarReader`: a `tar.Reader`, as the results its `Next` calls are
still to give and the body of the entry it stands on, and the file's
information. -/
structure TarReader where
  items : List Item
  cur : Stream
  Info : FileInfo
  deriving DecidableEq, Repr

/-- The method `tr.Next()`: the header of the next entry, `io.EOF` after the
last one. An error stays. -/
def TarReader.Next (tr : TarReader) : TarReader × Except Err Header :=
  match tr.items with
  | [] => (tr, .error .EOF)
  | .fail e :: _ => (tr, .error e)
  | .entry h b r :: rest => ({ tr with items := rest, cur := ⟨b, r⟩ }, .ok h)

def NewCrdr (W : World) (fin : File) (contentType : String) : Except Err Crdr :=
  if contentType = GzipCT then
    match W.gunzip fin.rest with
    | .error e => .error e
    | .ok r => .ok { Reader := r, fin := fin }
  else if contentType = TarCT then
    match W.unxz fin.rest with
    | .error e => .error e
    | .ok r => .ok { Reader := r, fin := fin }
  else
    .error (Errorf (fin.name ++ " is an unknown file type (unknow " ++ contentType ++ ")"))

/-- The method `(c *Crdr) Close()`. -/
def Crdr.Close (c : Crdr) : Crdr × Option Err :=
  match c.fin.Close with
  | (f, e) => ({ c with fin := f }, e)

def GetReader (W : World) (fin : Option File) (format : String) :
    Except Err (TarReader × Crdr) :=
  match fin with
  | none => .error (Errorf "file input is empty")
  | some fin =>
    match fin.Stat with
    | .error e => .error e
    | .ok fi =>
      let sniffed : Except Err (File × String) :=
        if format ≠ "" then .ok (fin, GetCTFromFormat format)
        else
          match ReadContentType W fin with
          | (_, _, some e) => .error e
          | (fin, ct, none) => .ok (fin, ct)
      match sniffed with
      | .error e => .error e
      | .ok (fin, ct) =>
        match NewCrdr W fin ct with
        | .error e => .error (Errorf ("error opening " ++ fin.name ++ " " ++ e.Error))
        | .ok rc => .ok ({ items := W.untar rc.Reader, cur := ⟨[], none⟩, Info := fi }, rc)

def OpenTarBuffer (W : World) (file : Option File) (format : String) :
    Except Err (TarReader × Crdr) :=
  GetReader W file format

def OpenTarFile (W : World) (pth : String) : Except Err (TarReader × Crdr) :=
  match osOpen W pth with
  | .error e => .error e
  | .ok fin => GetReader W (some fin) ""

/-! ## The tar writer -/

/-- A `tar.Writer` over its chain of writers: the operations that went
through, oldest first. -/
structure TarWriter where
  log : List Ev
  deriving DecidableEq, Repr

/-- An operation that goes through whole or not at all. A refused operation
leaves no trace in the log: the model has no counterpart of the error
`archive/tar` keeps in the writer after a failed write, and says nothing of
the operations that follow a refused one. -/
def TarWriter.submit (W : World) (tw : TarWriter) (ev : Ev) : TarWriter × Option Err :=
  match W.faults tw.log ev with
  | some (_, e) => (tw, some e)
  | none => ({ log := tw.log ++ [ev] }, none)

/-- The method `tw.WriteHeader(hdr)`. -/
def TarWriter.WriteHeader (W : World) (tw : TarWriter) (hdr : Header) :
    TarWriter × Option Err :=
  tw.submit W (.header hdr)

/-- The call `io.Copy(tw, r)`: when the writer fails, the bytes that went
through are logged as a cut body; so are the bytes of a reader that ends in
an error. -/
def TarWriter.Copy (W : World) (tw : TarWriter) (r : Stream) : TarWriter × Option Err :=
  match W.faults tw.log (.body r.bytes) with
  | some (k, e) => ({ log := tw.log ++ [.cutBody (r.bytes.take k)] }, some e)
  | none =>
    match copyErr r.err with
    | some e => ({ log := tw.log ++ [.cutBody r.bytes] }, some e)
    | none => ({ log := tw.log ++ [.body r.bytes] }, none)

/-- The method `tw.Close()`: writes the end-of-archive marker. -/
def TarWriter.Close (W : World) (tw : TarWriter) : TarWriter × Option Err :=
  tw.submit W .trailer

/-- The calls `xz.NewWriter(out)` and `gzip.NewWriterLevel(out, ...)`. -/
def NewWriter (W : World) (tw : TarWriter) (format : String) : TarWriter × Option Err :=
  tw.submit W (.filter format)

/-- The call `cout.Close()` on the compression writer. -/
def coutClose (W : World) (tw : TarWriter) : TarWriter × Option Err :=
  tw.submit W .finalize

/-! ## utils.go: copying entries -/

structure TarPart where
  Writer : TarWriter
  Reader : TarReader
  Header : Header
  deriving DecidableEq, Repr

def appendPart (W : World) (part : TarPart) : TarWriter × Option Err :=
  match part.Writer.WriteHeader W part.Header with
  | (tw, some e) => (tw, some e)
  | (tw, none) => tw.Copy W part.Reader.cur

def outOfFuel : Err := .other "out of fuel"

/-- The `for` loop of `AddTarFromWriter`, with a bound on its rounds; the
third component is `err` at the end of the loop. -/
def AddTarFromWriter.loop (W : World) :
    Nat → TarWriter → TarReader → TarWriter × TarReader × Option Err
  | 0, tw, tr => (tw, tr, some outOfFuel)
  | n + 1, tw, tr =>
    match tr.Next with
    | (tr, .error e) => (tw, tr, if e = .EOF then none else some e)
    | (tr, .ok hdr) =>
      let part : TarPart := { Writer := tw, Reader := tr, Header := hdr }
      match appendPart W part with
      | (tw, some e) => (tw, tr, some e)
      | (tw, none) => AddTarFromWriter.loop W n tw tr

/-- The function `AddTarFromWriter`; every round of the loop takes one item of
the reader, or ends the loop. -/
def AddTarFromWriter (W : World) (tw : TarWriter) (tr : TarReader) (rc : Crdr) :
    TarWriter × TarReader × Crdr × Option Err :=
  match AddTarFromWriter.loop W (tr.items.length + 1) tw tr with
  | (tw, tr, some e) => (tw, tr, (rc.Close).1, some e)
  | (tw, tr, none) =>
    match rc.Close with
    | (rc, err) => (tw, tr, rc, err)

/-- The `for` loop of `AddTarFromBuffer`. In its body `err := ...` declares a
new variable, which the later `_, err = io.Copy(...)` assigns too: at both
`break`s the function's `err` still holds the `nil` of `tr.Next()`. -/
def AddTarFromBuffer.loop (W : World) :
    Nat → TarWriter → TarReader → TarWriter × TarReader × Option Err
  | 0, tw, tr => (tw, tr, some outOfFuel)
  | n + 1, tw, tr =>
    match tr.Next with
    | (tr, .error e) => (tw, tr, if e = .EOF then none else some e)
    | (tr, .ok hdr) =>
      let part : TarPart := { Writer := tw, Reader := tr, Header := hdr }
      match part.Writer.WriteHeader W part.Header with
      | (tw, some _) => (tw, tr, none)
      | (tw, none) =>
        match tw.Copy W part.Reader.cur with
        | (tw, some _) => (tw, tr, none)
        | (tw, none) => AddTarFromBuffer.loop W n tw tr

def AddTarFromBuffer (W : World) (tw : TarWriter) (tr : TarReader) (rc : Crdr) :
    TarWriter × TarReader × Crdr × Option Err :=
  match AddTarFromBuffer.loop W (tr.items.length + 1) tw tr with
  | (tw, tr, some e) => (tw, tr, (rc.Close).1, some e)
  | (tw, tr, none) =>
    match rc.Close with
    | (rc, err) => (tw, tr, rc, err)

def AddTar (W : World) (tw : TarWriter) (pth : String) : TarWriter × Option Err :=
  match OpenTarFile W pth with
  | .error e => (tw, some e)
  | .ok (tr, rc) =>
    match AddTarFromWriter W tw tr rc with
    | (tw, _, _, err) => (tw, err)

/-- The function `tar.FileInfoHeader(fi, link)` of the standard library: the
header takes its name from `fi.Name()`, its size and mode from `fi`; `link`
is the target recorded when `fi` describes a symbolic link, and is not used
otherwise. -/
def FileInfoHeader (fi : FileInfo) (link : String) : Except Err Header :=
  .ok { name := fi.name, size := fi.size, mode := fi.mode,
        linkname := if fi.symlink then link else "" }

/-- The reader a file is for `io.Copy`. -/
def File.stream (f : File) : Stream :=
  if f.closed then ⟨[], some ErrClosed⟩ else ⟨f.rest, none⟩

def appendFile (W : World) (tw : TarWriter) (file : File) (fi : FileInfo)
    (directory : String) : TarWriter × Option Err :=
  match FileInfoHeader fi (directory ++ fi.name) with
  | .error e => (tw, some e)
  | .ok header =>
    match tw.WriteHeader W header with
    | (tw, some e) => (tw, some e)
    | (tw, none) => tw.Copy W file.stream

def AddFileFromBuffer (W : World) (tw : TarWriter) (file : File) (fi : FileInfo)
    (directory : String) : TarWriter × Option Err :=
  match appendFile W tw file fi directory with
  | (tw, some e) => (tw, some e)
  | (tw, none) => (tw, (file.Close).2)

def AddFile (W : World) (tw : TarWriter) (pth directory : String) : TarWriter × Option Err :=
  match osStat W pth with
  | .error e => (tw, some e)
  | .ok fi =>
    match osOpen W pth with
    | .error e => (tw, some e)
    | .ok file =>
      let ext := Ext pth
      match ReadContentType W file with
      | (_, _, some e) => (tw, some e)
      | (file, ct, none) =>
        if ct = GzipCT then
          match OpenTarFile W pth with
          | .error e => (tw, some e)
          | .ok (tr, rc) =>
            match AddTarFromWriter W tw tr rc with
            | (tw, _, _, err) => (tw, err)
        else if ct = TarCT then
          if ext ≠ ".xz" ∧ ext ≠ ".tar" then
            AddFileFromBuffer W tw file fi directory
          else
            match OpenTarFile W pth with
            | .error e => (tw, some e)
            | .ok (tr, rc) =>
              match AddTarFromWriter W tw tr rc with
              | (tw, _, _, err) => (tw, err)
        else
          AddFileFromBuffer W tw file fi directory

/-! ## cmd: the commands

The flags of a command are a record; `cmd.Flags().GetString` of a declared
flag does not fail. A command returns the output chain as it leaves it and
its error. -/

/-- The tails of `s` that `sub` starts. -/
def hasInfix : List Char → List Char → Bool
  | [], sub => sub.isEmpty
  | c :: cs, sub => sub.isPrefixOf (c :: cs) || hasInfix cs sub

/-- The function `strings.Contains`. -/
def strContains (s sub : String) : Bool := hasInfix s.toList sub.toList

/-- The `switch output` of the three commands. -/
def openOutput (W : World) (output : String) : Except Err File :=
  if output = "" then
    .error (Errorf "missing output file, -h/--help to see how to use the command")
  else if output = "-" then .ok W.stdout
  else
    match CreateNewOutput W output with
    | .error e => .error (Errorf ("failed to open " ++ output ++ ": " ++ e.Error))
    | .ok f => .ok f

/-- The end of `tarAddFunc` and `tarAppendfunc`: `tw.Close()`, then
`cout.Close()` when `cout` is not nil. -/
def closeAll (W : World) (tw : TarWriter) (cout : Option String) : TarWriter × Option Err :=
  match tw.Close W with
  | (tw, some e) => (tw, some (Errorf ("failed to close compressed writer, " ++ e.Error)))
  | (tw, none) =>
    match cout with
    | some _ =>
      match coutClose W tw with
      | (tw, some e) => (tw, some (Errorf ("failed to close compressed writer, " ++ e.Error)))
      | (tw, none) => (tw, none)
    | none => (tw, none)

structure MergeFlags where
  compress : Bool
  format : String
  inputformat : String
  output : String
  deriving DecidableEq, Repr

/-- The loop `for _, v := range args` of `tarCatfunc`. -/
def tarCatfunc.args (W : World) : List String → TarWriter → TarWriter × Option Err
  | [], tw => (tw, none)
  | v :: vs, tw =>
    match AddTar W tw v with
    | (tw, some e) => (tw, some (Errorf ("failed to merge " ++ v ++ ": " ++ e.Error)))
    | (tw, none) => tarCatfunc.args W vs tw

/-- The block `if compress` of `tarCatfunc`. It ends with a `default` case
that refuses any other format. -/
def tarCatfunc.filter (W : World) (fl : MergeFlags) (tw : TarWriter) : TarWriter × Option Err :=
  if fl.compress then
    if fl.format = "xz" then NewWriter W tw "xz"
    else if fl.format = "gzip" then NewWriter W tw "gzip"
    else (tw, some (Errorf ("compression format not available: " ++ fl.format)))
  else (tw, none)

/-- The block of `tarCatfunc` that merges the standard input. -/
def tarCatfunc.stdin (W : World) (fl : MergeFlags) (tw : TarWriter) : TarWriter × Option Err :=
  match OpenTarBuffer W (some W.stdin) fl.inputformat with
  | .ok (stdin, rc) =>
    match AddTarFromWriter W tw stdin rc with
    | (tw, _, _, some e) => (tw, some (Errorf ("failed to merge input: " ++ e.Error)))
    | (tw, _, _, none) => (tw, none)
  | .error e =>
    if !strContains e.Error "empty" then
      (tw, some (Errorf ("failed to merge input: " ++ e.Error)))
    else (tw, none)

/-- The function `tarCatfunc` of `merge`. It declares `var cout *tar.Writer`;
inside the `switch`, `cout, err := xz.NewWriter(out)` declares a new `cout`, so
the outer one is nil to the end. -/
def tarCatfunc (W : World) (fl : MergeFlags) (args : List String) : TarWriter × Option Err :=
  let tw : TarWriter := { log := [] }
  if args.length = 0 then (tw, some (Errorf "arguments need it"))
  else
    match openOutput W fl.output with
    | .error e => (tw, some e)
    | .ok _ =>
      let cout : Option String := none
      match tarCatfunc.filter W fl tw with
      | (tw, some e) => (tw, some e)
      | (tw, none) =>
        match tarCatfunc.stdin W fl tw with
        | (tw, some e) => (tw, some e)
        | (tw, none) =>
          match tarCatfunc.args W args tw with
          | (tw, some e) => (tw, some e)
          | (tw, none) => closeAll W tw cout

structure AddFlags where
  input : String
  output : String
  format : String
  inputformat : String
  directory : String
  deriving DecidableEq, Repr

/-- The loop `for _, v := range args` of `tarAddFunc` and `tarAppendfunc`. -/
def addArgs (W : World) (directory : String) : List String → TarWriter → TarWriter × Option Err
  | [], tw => (tw, none)
  | v :: vs, tw =>
    match AddFile W tw v directory with
    | (tw, some e) => (tw, some (Errorf ("failed to merge " ++ v ++ ": " ++ e.Error)))
    | (tw, none) => addArgs W directory vs tw

/-- The `switch format` of `tarAddFunc` and `tarAppendfunc`: the chain, `cout`
and the error. It has no `default` case. -/
def selectFilter (W : World) (tw : TarWriter) (format : String) :
    TarWriter × Option String × Option Err :=
  if format = "xz" then
    match NewWriter W tw "xz" with
    | (tw, some e) => (tw, none, some e)
    | (tw, none) => (tw, some "xz", none)
  else if format = "gzip" then
    match NewWriter W tw "gzip" with
    | (tw, some e) => (tw, none, some e)
    | (tw, none) => (tw, some "gzip", none)
  else (tw, none, none)

/-- The function `tarAddFunc` of `add`. -/
def tarAddFunc (W : World) (fl : AddFlags) (args : List String) : TarWriter × Option Err :=
  let tw : TarWriter := { log := [] }
  if args.length = 0 then (tw, some (Errorf "arguments need it"))
  else
    match openOutput W fl.output with
    | .error e => (tw, some e)
    | .ok _ =>
      match selectFilter W tw fl.format with
      | (tw, _, some e) => (tw, some e)
      | (tw, cout, none) =>
        match addArgs W fl.directory args tw with
        | (tw, some e) => (tw, some e)
        | (tw, none) =>
          let added : TarWriter × Option Err :=
            if fl.input ≠ "" then
              match AddFile W tw fl.input fl.directory with
              | (tw, some e) =>
                (tw, some (Errorf ("failed to merge " ++ fl.input ++ ": " ++ e.Error)))
              | (tw, none) => (tw, none)
            else
              match OpenTarBuffer W (some W.stdin) fl.inputformat with
              | .ok (stdin, rc) =>
                match AddTarFromBuffer W tw stdin rc with
                | (tw, _, _, some e) =>
                  (tw, some (Errorf ("failed to merge stdin: " ++ e.Error)))
                | (tw, _, _, none) => (tw, none)
              | .error e =>
                (tw, some (Errorf ("failed to merge " ++ fl.input ++ ": " ++ e.Error)))
          match added with
          | (tw, some e) => (tw, some e)
          | (tw, none) => closeAll W tw cout

structure AppendFlags where
  input : String
  output : String
  format : String
  directory : String
  deriving DecidableEq, Repr

/-- The function `tarAppendfunc` of `append`; the first component is the file
`GetSeekedTar` returned, on which the output chain is built. -/
def tarAppendfunc (W : World) (fl : AppendFlags) (args : List String) :
    Option File × TarWriter × Option Err :=
  let tw : TarWriter := { log := [] }
  if args.length = 0 then (none, tw, some (Errorf "arguments need it"))
  else if fl.input = "" && !FileExistAndNotEmpty (some W.stdin) then
    (none, tw, some (Errorf "input can't be empty"))
  else
    match openOutput W fl.output with
    | .error e => (none, tw, some e)
    | .ok outputFile =>
      match osOpen W fl.input with
      | .error e => (none, tw, some e)
      | .ok inputFile =>
        match GetSeekedTar W inputFile outputFile (-1024) with
        | .error e => (none, tw, some e)
        | .ok outputFile =>
          match selectFilter W tw fl.format with
          | (tw, _, some e) => (some outputFile, tw, some e)
          | (tw, cout, none) =>
            match addArgs W fl.directory args tw with
            | (tw, some e) => (some outputFile, tw, some e)
            | (tw, none) =>
              match closeAll W tw cout with
              | (tw, err) => (some outputFile, tw, err)

/-! ## A small world for examples -/

/-- An open file on the given bytes, at offset 0. -/
def File.ofBytes (name : String) (data : List Nat) : File :=
  { name := name, data := data, pos := 0, mode := 420, seekable := true, closed := false }

/-- The six bytes every xz stream starts with. -/
def xzMagic : List Nat := [253, 55, 122, 88, 90, 0]

/-- A stand-in for an uncompressed archive: one block of an entry, then the
1024 zero bytes of the end-of-archive marker. -/
def demoArchive : List Nat := List.replicate 512 97 ++ List.replicate 1024 0

/-- A world with a few files. Its detector knows the gzip magic number and
calls everything else binary data; its xz reader rejects what does not start
with the xz magic; its tar reader makes of every byte an entry of one byte,
named by the character of the byte. No output
operation fails. -/
def demoWorld : World where
  fs := fun p =>
    if p = "a.txt" then some ⟨420, [104, 105]⟩
    else if p = "b.txt" then some ⟨420, [33]⟩
    else if p = "in.tar" then some ⟨420, demoArchive⟩
    else if p = "one.xz" then some ⟨420, xzMagic ++ [112]⟩
    else if p = "two.xz" then some ⟨420, xzMagic ++ [113, 114]⟩
    else none
  createErr := fun _ => none
  openErr := fun _ => none
  stdin := File.ofBytes "/dev/stdin" []
  stdout := File.ofBytes "/dev/stdout" []
  detect := fun bs => if bs.take 3 = [31, 139, 8] then GzipCT else TarCT
  gunzip := fun _ => .error (.other "gzip: invalid header")
  unxz := fun bs =>
    if bs.take 6 = xzMagic then .ok ⟨bs.drop 6, none⟩
    else .error (.other "xz: invalid header magic bytes")
  untar := fun s => s.bytes.map (fun b => Item.entry ⟨String.mk [Char.ofNat b], 1, 420, ""⟩ [b] none)
  faults := fun _ _ => none

/-! ## Vocabulary of the statements -/

/-- The items of a reader that delivers the given entries, each one whole. -/
def goodItems : List (Header × List Nat) → List Item
  | [] => []
  | (h, b) :: es => .entry h b none :: goodItems es

/-- The operations that write the given entries: for each, its header, then
its whole body. -/
def entryEvents : List (Header × List Nat) → List Ev
  | [] => []
  | (h, b) :: es => .header h :: .body b :: entryEvents es

/-- The output chain, from the given log on, accepts the headers and bodies of
the given entries one after the other. -/
def accepts (W : World) : List Ev → List (Header × List Nat) → Prop
  | _, [] => True
  | log, (h, b) :: es =>
    W.faults log (.header h) = none ∧ W.faults (log ++ [.header h]) (.body b) = none ∧
      accepts W (log ++ [.header h, .body b]) es

/-- A source: an opened archive, as `OpenTarFile` returns it. -/
abbrev Source := TarReader × Crdr

/-- A source yields a finite sequence of entries without error: the entries
`es`, whole, then the end of the archive; and its file is open. -/
def Source.yields (s : Source) (es : List (Header × List Nat)) : Prop :=
  s.1.items = goodItems es ∧ s.2.fin.closed = false

/-- The concatenation of the entry sequences of a list of sources. -/
def concatEntries : List (List (Header × List Nat)) → List (Header × List Nat)
  | [] => []
  | es :: ess => es ++ concatEntries ess

/-- An operation that writes part of an entry: a header or body bytes. -/
def Ev.isCopy : Ev → Bool
  | .header _ => true
  | .body _ => true
  | .cutBody _ => true
  | _ => false

/-- The log of `tw2` is the log of `tw1` followed by entry operations only. -/
def Extends (tw1 tw2 : TarWriter) : Prop :=
  ∃ extra, tw2.log = tw1.log ++ extra ∧ ∀ ev ∈ extra, ev.isCopy = true

/-! ## More examples -/

/-- The world `demoWorld` with an output chain that refuses the header of any
entry named `x`. -/
def faultyWorld : World :=
  { demoWorld with
    faults := fun _ ev =>
      match ev with
      | .header h => if h.name = "x" then some (0, .other "short write") else none
      | _ => none }

/-- A reader with three entries to give, named `a`, `x` and `c`. -/
def demoReader : TarReader :=
  { items := [.entry ⟨"a", 1, 420, ""⟩ [1] none, .entry ⟨"x", 1, 420, ""⟩ [2] none,
              .entry ⟨"c", 1, 420, ""⟩ [3] none],
    cur := ⟨[], none⟩,
    Info := ⟨"abc.tar", 3, 420, false⟩ }

/-- The closer that goes with `demoReader`. -/
def demoCrdr : Crdr :=
  { Reader := ⟨[1, 2, 3], none⟩, fin := File.ofBytes "abc.tar" [1, 2, 3] }

/-- What `OpenTarFile demoWorld` returns for the file of `demoWorld` with the
given name and (short) payload after the xz magic; sniffing has read the
whole file. -/
def demoSource (name : String) (payload : List Nat) : Source :=
  ({ items := payload.map (fun b => Item.entry ⟨String.mk [Char.ofNat b], 1, 420, ""⟩ [b] none),
     cur := ⟨[], none⟩,
     Info := ⟨name, 6 + payload.length, 420, false⟩ },
   { Reader := ⟨payload, none⟩,
     fin := { File.ofBytes name (xzMagic ++ payload) with nread := 6 + payload.length } })

/-- The world `demoWorld` with an archive of one entry on the standard
input. -/
def stdinWorld : World :=
  { demoWorld with stdin := File.ofBytes "/dev/stdin" (xzMagic ++ [97]) }

/-- The world `faultyWorld` with an archive of one entry on the standard
input, and one more file, `bad.xz`, an archive whose entries are named `a`,
`x` and `c`. -/
def faultyMergeWorld : World :=
  { faultyWorld with
    stdin := File.ofBytes "/dev/stdin" (xzMagic ++ [97])
    fs := fun p =>
      if p = "bad.xz" then some ⟨420, xzMagic ++ [97, 120, 99]⟩ else demoWorld.fs p }

/-- The decoding the specification gives an input of `GetSeekedTar`: sniffed
as gzip, it is inflated; sniffed as binary data under a name that ends in
`.xz`, it is read as xz; anything else is taken as it is. The bytes are those
of the whole file. -/
def specDecode (W : World) (name : String) (data : List Nat) : Except Err Stream :=
  let ct := W.detect (sniffBuffer (data.take 512))
  if ct = "application/x-gzip" then W.gunzip data
  else if ct = "application/octet-stream" ∧ Ext name = ".xz" then W.unxz data
  else .ok ⟨data, none⟩

/-! ## Sniffing -/

theorem Read_open (f : File) (k : Nat) (hc : f.closed = false) (hk : 0 < k)
    (hp : f.pos < f.data.length) :
    f.Read k = ({ f with pos := f.pos + ((f.data.drop f.pos).take k).length,
                         nread := f.nread + ((f.data.drop f.pos).take k).length },
                (f.data.drop f.pos).take k, none) := by
  unfold File.Read
  simp [hc, Nat.pos_iff_ne_zero.mp hk, Nat.not_le.mpr hp]

theorem ReadContentType_ok (W : World) (f : File) (hc : f.closed = false)
    (hs : f.seekable = true) (hp : f.pos < f.data.length) :
    ReadContentType W f =
      ({ f with pos := 0, nread := f.nread + ((f.data.drop f.pos).take 512).length },
       W.detect (sniffBuffer ((f.data.drop f.pos).take 512)), none) := by
  unfold ReadContentType
  rw [Read_open f 512 hc (by decide) hp]
  simp [File.Seek, hc, hs]

theorem ReadContentType_success (W : World) (f : File)
    (h : (ReadContentType W f).2.2 = none) :
    f.closed = false ∧ f.seekable = true ∧ f.pos < f.data.length := by
  unfold ReadContentType at h
  by_cases hc : f.closed = true
  · simp [File.Read, hc] at h
  · by_cases hp : f.data.length ≤ f.pos
    · simp [File.Read, hc, hp] at h
    · have hc2 : f.closed = false := by simpa using hc
      rw [Read_open f 512 hc2 (by decide) (Nat.lt_of_not_le hp)] at h
      by_cases hs : f.seekable = true
      · exact ⟨hc2, hs, Nat.lt_of_not_le hp⟩
      · simp [File.Seek, hc2, hs] at h

theorem ReadContentType_empty (W : World) (f : File) (h : f.data = []) :
    ∃ e, (ReadContentType W f).2.2 = some e := by
  unfold ReadContentType File.Read
  by_cases hc : f.closed = true
  · simp [hc]
  · simp [hc, h]

/-- The reader `GetSeekedTar` chooses depends on the file only through what
is left to read in it. -/
theorem seekedReader_congr (W : World) (ct ext : String) (f g : File)
    (h : f.rest = g.rest) : seekedReader W ct ext f = seekedReader W ct ext g := by
  unfold seekedReader
  rw [h]

/-- The reader `GetSeekedTar` chooses for a file at offset 0 is the decoding
of the specification. -/
theorem seekedReader_spec (W : World) (input : File) (hp : input.pos = 0) :
    seekedReader W (W.detect (sniffBuffer (input.data.take 512))) (Ext input.name) input =
      specDecode W input.name input.data := by
  have hrest : input.rest = input.data := by simp [File.rest, hp]
  unfold seekedReader specDecode
  simp only [hrest, GzipCT, TarCT]
  by_cases h1 : W.detect (sniffBuffer (input.data.take 512)) = "application/x-gzip"
  · simp [h1]
  · by_cases h2 : W.detect (sniffBuffer (input.data.take 512)) = "application/octet-stream"
    · by_cases h3 : Ext input.name = ".xz"
      · simp [h2, h3]
      · simp [h2, h3]
    · simp [h1, h2]

theorem GetSeekedTar_eq (W : World) (input output : File) (s : Int) (hs : s < 0)
    (hin : input.pos = 0 ∧ input.closed = false ∧ input.seekable = true)
    (hne : input.data ≠ [])
    (hout : output.data = [] ∧ output.pos = 0 ∧ output.closed = false ∧ output.seekable = true) :
    GetSeekedTar W input output s =
      match seekedReader W (W.detect (sniffBuffer (input.data.take 512))) (Ext input.name) input with
      | .error e => .error e
      | .ok reader =>
        match copyErr reader.err with
        | some e => .error e
        | none =>
          match W.openErr output.name with
          | some e => .error e
          | none =>
            if (reader.bytes.length : Int) + s < 0 then .error ErrInvalid
            else .ok { output with data := reader.bytes, pos := ((reader.bytes.length : Int) + s).toNat } := by
  obtain ⟨hp, hc, hk⟩ := hin
  obtain ⟨od, op, oc, ok⟩ := hout
  have hlen : input.pos < input.data.length := by
    rw [hp]; exact List.length_pos.mpr hne
  unfold GetSeekedTar
  rw [ReadContentType_ok W input hc hk hlen]
  simp only [hp, List.drop_zero]
  rw [seekedReader_congr W _ _
    { input with pos := 0, nread := input.nread + (List.take 512 input.data).length } input
    (by simp [File.rest, hp])]
  cases hr : seekedReader W (W.detect (sniffBuffer (List.take 512 input.data))) (Ext input.name) input with
  | error e => simp
  | ok reader =>
    simp only [copyToFile, File.Write, oc, od, op]
    cases he : copyErr reader.err with
    | some e => simp
    | none =>
      cases ho : W.openErr output.name with
      | some e => simp [File.Close, osOpenFile, ho]
      | none =>
        by_cases hneg : (reader.bytes.length : Int) + s < 0
        · simp [File.Close, File.Seek, osOpenFile, ho, ok, hs, hneg]
        · simp [File.Close, File.Seek, osOpenFile, ho, ok, hs, hneg, oc]

/-- C8, as stated, fails: on a three-byte file read from offset 1,
`ReadContentType` succeeds and leaves the offset at 0, not at 1. -/
theorem ReadContentType_offset_not_restored :
    (ReadContentType demoWorld { File.ofBytes "f" [1, 2, 3] with pos := 1 }).2.2 = none ∧
    (ReadContentType demoWorld { File.ofBytes "f" [1, 2, 3] with pos := 1 }).1.pos = 0 ∧
    ({ File.ofBytes "f" [1, 2, 3] with pos := 1 } : File).pos = 1 := by
  decide

/-- C8 (amended): a successful `ReadContentType` reads at most 512 bytes (the
count of bytes read through the file grows by the number of bytes left from
the offset, and by 512 at most) and leaves the file as it was except for the
offset, which is 0, the start of the file; so when the offset was 0 before the
call, what is left to read after it is what was left to read before it. -/
theorem ReadContentType_rewinds (W : World) (f : File)
    (h : (ReadContentType W f).2.2 = none) :
    (ReadContentType W f).1 =
      { f with pos := 0, nread := f.nread + min 512 (f.data.length - f.pos) } ∧
    (ReadContentType W f).1.nread ≤ f.nread + 512 ∧
    (ReadContentType W f).1.data = f.data ∧
    (f.pos = 0 → (ReadContentType W f).1.rest = f.rest) := by
  obtain ⟨hc, hs, hp⟩ := ReadContentType_success W f h
  rw [ReadContentType_ok W f hc hs hp]
  refine ⟨?_, ?_, rfl, ?_⟩
  · simp [List.length_take]
  · simp only [List.length_take, List.length_drop]
    omega
  · intro h0
    simp [File.rest, h0]

theorem ReadContentType_rewinds_witness :
    (ReadContentType demoWorld { File.ofBytes "f" [1, 2, 3] with pos := 1 }).1
      = { File.ofBytes "f" [1, 2, 3] with nread := 2 } ∧
    (ReadContentType demoWorld { File.ofBytes "f" [1, 2, 3] with pos := 1 }).1.nread
      ≤ 0 + 512 :=
  ⟨(ReadContentType_rewinds demoWorld { File.ofBytes "f" [1, 2, 3] with pos := 1 }
      (by decide)).1,
   (ReadContentType_rewinds demoWorld { File.ofBytes "f" [1, 2, 3] with pos := 1 }
      (by decide)).2.1⟩

/-- C9: with a negative seek `s`, on a freshly opened input and a freshly
created output, `GetSeekedTar` succeeds, when the output can be opened again,
exactly when the input is not empty, its content decodes without error
(inflated when sniffed as gzip, read as xz when sniffed as binary data under a
name in `.xz`, taken as it is otherwise) to some `n` bytes, and `n + s ≥ 0`;
the file returned then holds these `n` decoded bytes, with its offset at
`n + s`; an empty input, and a window `n + s < 0`, give an error, and so does
an output that cannot be opened again. -/
theorem GetSeekedTar_succeeds_iff (W : World) (input output : File) (s : Int) (hs : s < 0)
    (hin : input.pos = 0 ∧ input.closed = false ∧ input.seekable = true)
    (hout : output.data = [] ∧ output.pos = 0 ∧ output.closed = false ∧
      output.seekable = true) :
    (W.openErr output.name = none →
      ((∃ out, GetSeekedTar W input output s = .ok out) ↔
        input.data ≠ [] ∧
        ∃ r, specDecode W input.name input.data = .ok r ∧
          copyErr r.err = none ∧ 0 ≤ (r.bytes.length : Int) + s)) ∧
    (∀ out, GetSeekedTar W input output s = .ok out →
      ∃ r, specDecode W input.name input.data = .ok r ∧ copyErr r.err = none ∧
        out.data = r.bytes ∧ (out.pos : Int) = (r.bytes.length : Int) + s ∧
        W.openErr output.name = none) ∧
    (input.data = [] → ∃ e, GetSeekedTar W input output s = .error e) ∧
    (∀ r, specDecode W input.name input.data = .ok r →
      (r.bytes.length : Int) + s < 0 → ∃ e, GetSeekedTar W input output s = .error e) ∧
    (∀ e, W.openErr output.name = some e →
      ∃ e1, GetSeekedTar W input output s = .error e1) := by
  have hempty : input.data = [] → ∃ e, GetSeekedTar W input output s = .error e := by
    intro h0
    obtain ⟨e, he⟩ := ReadContentType_empty W input h0
    refine ⟨e, ?_⟩
    unfold GetSeekedTar
    rcases hrc : ReadContentType W input with ⟨f, ct, err⟩
    rw [hrc] at he
    simp only at he
    subst he
    rfl
  by_cases hne : input.data = []
  · obtain ⟨e, he⟩ := hempty hne
    refine ⟨?_, ?_, hempty, ?_, ?_⟩
    · intro _; simp [he, hne]
    · intro out h; rw [he] at h; cases h
    · intro _ _ _; exact ⟨e, he⟩
    · intro _ _; exact ⟨e, he⟩
  · have key := GetSeekedTar_eq W input output s hs hin hne hout
    rw [seekedReader_spec W input hin.1] at key
    refine ⟨?_, ?_, hempty, ?_, ?_⟩
    · intro hopen
      rw [key]
      cases hr : specDecode W input.name input.data with
      | error e => simp [hne]
      | ok r =>
        cases he : copyErr r.err with
        | some e => simp [hne, he]
        | none =>
          by_cases hneg : (r.bytes.length : Int) + s < 0
          · simp [hne, hneg, he, hopen]
          · simp [hne, hneg, he, hopen]; omega
    · intro out h
      rw [key] at h
      cases hr : specDecode W input.name input.data with
      | error e => rw [hr] at h; cases h
      | ok r =>
        rw [hr] at h
        cases he : copyErr r.err with
        | some e => simp [he] at h
        | none =>
          simp only [he] at h
          cases ho : W.openErr output.name with
          | some e => simp [ho] at h
          | none =>
            simp only [ho] at h
            by_cases hneg : (r.bytes.length : Int) + s < 0
            · simp [hneg] at h
            · simp only [hneg, if_false] at h
              cases h
              refine ⟨r, rfl, he, rfl, ?_, rfl⟩
              simp only
              omega
    · intro r hr hneg
      rw [key, hr]
      cases he : copyErr r.err with
      | some e => exact ⟨e, by simp [he]⟩
      | none =>
        cases ho : W.openErr output.name with
        | some e => exact ⟨e, by simp [he, ho]⟩
        | none => exact ⟨ErrInvalid, by simp [he, ho, hneg]⟩
    · intro e ho
      rw [key]
      cases hr : specDecode W input.name input.data with
      | error e1 => exact ⟨e1, rfl⟩
      | ok r =>
        cases he : copyErr r.err with
        | some e1 => exact ⟨e1, by simp [he]⟩
        | none => exact ⟨e, by simp [he, ho]⟩

theorem GetSeekedTar_succeeds_iff_witness :
    ∃ out, GetSeekedTar demoWorld (File.ofBytes "in.tar.xz" (xzMagic ++ [5, 6, 7]))
        (File.ofBytes "out.tar" []) (-2) = .ok out ∧
      out.data = [5, 6, 7] ∧ (out.pos : Int) = 1 := by
  have T := GetSeekedTar_succeeds_iff demoWorld
    (File.ofBytes "in.tar.xz" (xzMagic ++ [5, 6, 7])) (File.ofBytes "out.tar" []) (-2)
    (by decide) (by decide) (by decide)
  have hd : specDecode demoWorld (File.ofBytes "in.tar.xz" (xzMagic ++ [5, 6, 7])).name
      (File.ofBytes "in.tar.xz" (xzMagic ++ [5, 6, 7])).data = .ok ⟨[5, 6, 7], none⟩ := by
    decide
  obtain ⟨out, h⟩ := (T.1 rfl).mpr ⟨by decide, ⟨[5, 6, 7], none⟩, hd, by decide, by decide⟩
  obtain ⟨r, hr, _, hdata, hpos, _⟩ := T.2.1 out h
  rw [hd] at hr
  cases hr
  exact ⟨out, h, hdata, hpos⟩

/-! ## The copy loop -/

theorem entryEvents_append (xs ys : List (Header × List Nat)) :
    entryEvents (xs ++ ys) = entryEvents xs ++ entryEvents ys := by
  induction xs with
  | nil => rfl
  | cons x xs ih =>
    obtain ⟨h, b⟩ := x
    simp [entryEvents, ih]

theorem goodItems_length (es : List (Header × List Nat)) :
    (goodItems es).length = es.length := by
  induction es with
  | nil => rfl
  | cons x xs ih =>
    obtain ⟨h, b⟩ := x
    simp [goodItems, ih]

theorem accepts_of_no_fault (W : World) (hsink : ∀ log ev, W.faults log ev = none)
    (log : List Ev) (es : List (Header × List Nat)) : accepts W log es := by
  induction es generalizing log with
  | nil => trivial
  | cons x xs ih =>
    obtain ⟨h, b⟩ := x
    exact ⟨hsink _ _, hsink _ _, ih _⟩

/-- The loop takes the entries the chain accepts one by one. -/
theorem loop_good (W : World) (pre : List (Header × List Nat)) :
    ∀ (n : Nat) (tw : TarWriter) (tr : TarReader) (rest : List Item),
      tr.items = goodItems pre ++ rest → accepts W tw.log pre →
      ∃ c, AddTarFromWriter.loop W (pre.length + n) tw tr =
        AddTarFromWriter.loop W n { log := tw.log ++ entryEvents pre }
          { tr with items := rest, cur := c } := by
  induction pre with
  | nil =>
    intro n tw tr rest hit _
    refine ⟨tr.cur, ?_⟩
    simp only [goodItems, List.nil_append] at hit
    simp [entryEvents, ← hit]
  | cons x xs ih =>
    obtain ⟨h, b⟩ := x
    intro n tw tr rest hit hacc
    obtain ⟨h1, h2, h3⟩ := hacc
    obtain ⟨c, hc⟩ := ih n { log := tw.log ++ [.header h, .body b] }
      { tr with items := goodItems xs ++ rest, cur := ⟨b, none⟩ } rest rfl h3
    refine ⟨c, ?_⟩
    have hlen : (((h, b) :: xs).length + n) = (xs.length + n) + 1 := by
      simp only [List.length_cons]; omega
    rw [hlen, AddTarFromWriter.loop]
    simp only [TarReader.Next, hit, goodItems, List.cons_append, appendPart,
      TarWriter.WriteHeader, TarWriter.submit, h1, TarWriter.Copy, h2, copyErr]
    simp only [List.append_assoc, List.singleton_append] at hc ⊢
    rw [hc]
    simp [entryEvents]

theorem AddTarFromWriter_split (W : World) (tw : TarWriter) (tr : TarReader) (rc : Crdr)
    (pre : List (Header × List Nat)) (rest : List Item)
    (hitems : tr.items = goodItems pre ++ rest) (hacc : accepts W tw.log pre) :
    ∃ c, AddTarFromWriter W tw tr rc =
      match AddTarFromWriter.loop W (rest.length + 1) { log := tw.log ++ entryEvents pre }
          { tr with items := rest, cur := c } with
      | (tw, tr, some e) => (tw, tr, (rc.Close).1, some e)
      | (tw, tr, none) =>
        match rc.Close with
        | (rc, err) => (tw, tr, rc, err) := by
  obtain ⟨c, hc⟩ := loop_good W pre (rest.length + 1) tw tr rest hitems hacc
  refine ⟨c, ?_⟩
  have hlen : tr.items.length + 1 = pre.length + (rest.length + 1) := by
    rw [hitems, List.length_append, goodItems_length]; omega
  unfold AddTarFromWriter
  rw [hlen, hc]

/-! ## Only entry operations are logged by the copying functions -/

theorem Extends.refl (tw : TarWriter) : Extends tw tw :=
  ⟨[], by simp, by simp⟩

theorem Extends.trans (a b c : TarWriter) (h1 : Extends a b) (h2 : Extends b c) :
    Extends a c := by
  obtain ⟨x, hx, hx2⟩ := h1
  obtain ⟨y, hy, hy2⟩ := h2
  refine ⟨x ++ y, by rw [hy, hx, List.append_assoc], ?_⟩
  intro ev hev
  rcases List.mem_append.mp hev with h | h
  · exact hx2 ev h
  · exact hy2 ev h

theorem WriteHeader_extends (W : World) (tw : TarWriter) (h : Header) :
    Extends tw (tw.WriteHeader W h).1 := by
  unfold TarWriter.WriteHeader TarWriter.submit
  cases W.faults tw.log (.header h) with
  | some p => exact Extends.refl tw
  | none => exact ⟨[.header h], rfl, by simp [Ev.isCopy]⟩

theorem Copy_extends (W : World) (tw : TarWriter) (r : Stream) :
    Extends tw (tw.Copy W r).1 := by
  unfold TarWriter.Copy
  cases W.faults tw.log (.body r.bytes) with
  | some p => exact ⟨[.cutBody (r.bytes.take p.1)], rfl, by simp [Ev.isCopy]⟩
  | none =>
    cases copyErr r.err with
    | some e => exact ⟨[.cutBody r.bytes], rfl, by simp [Ev.isCopy]⟩
    | none => exact ⟨[.body r.bytes], rfl, by simp [Ev.isCopy]⟩

theorem appendPart_extends (W : World) (part : TarPart) :
    Extends part.Writer (appendPart W part).1 := by
  unfold appendPart
  have h1 := WriteHeader_extends W part.Writer part.Header
  rcases hw : part.Writer.WriteHeader W part.Header with ⟨tw1, e⟩
  rw [hw] at h1
  cases e with
  | some e => exact h1
  | none => exact Extends.trans _ _ _ h1 (Copy_extends W tw1 part.Reader.cur)

theorem loop_extends (W : World) (n : Nat) :
    ∀ (tw : TarWriter) (tr : TarReader), Extends tw (AddTarFromWriter.loop W n tw tr).1 := by
  induction n with
  | zero => intro tw tr; exact Extends.refl tw
  | succ n ih =>
    intro tw tr
    rw [AddTarFromWriter.loop]
    rcases hn : tr.Next with ⟨tr1, r⟩
    cases r with
    | error e => exact Extends.refl tw
    | ok hdr =>
      simp only
      have h1 := appendPart_extends W { Writer := tw, Reader := tr1, Header := hdr }
      rcases ha : appendPart W { Writer := tw, Reader := tr1, Header := hdr } with ⟨tw1, e⟩
      rw [ha] at h1
      cases e with
      | some e => exact h1
      | none => exact Extends.trans _ _ _ h1 (ih tw1 tr1)

theorem AddTarFromWriter_extends (W : World) (tw : TarWriter) (tr : TarReader) (rc : Crdr) :
    Extends tw (AddTarFromWriter W tw tr rc).1 := by
  unfold AddTarFromWriter
  have h1 := loop_extends W (tr.items.length + 1) tw tr
  rcases hl : AddTarFromWriter.loop W (tr.items.length + 1) tw tr with ⟨tw1, tr1, e⟩
  rw [hl] at h1
  cases e with
  | some e => exact h1
  | none => exact h1

theorem AddTar_extends (W : World) (tw : TarWriter) (pth : String) :
    Extends tw (AddTar W tw pth).1 := by
  unfold AddTar
  cases OpenTarFile W pth with
  | error e => exact Extends.refl tw
  | ok p =>
    obtain ⟨tr, rc⟩ := p
    exact AddTarFromWriter_extends W tw tr rc

theorem tarCatfunc_args_extends (W : World) (args : List String) :
    ∀ tw : TarWriter, Extends tw (tarCatfunc.args W args tw).1 := by
  induction args with
  | nil => intro tw; exact Extends.refl tw
  | cons v vs ih =>
    intro tw
    rw [tarCatfunc.args]
    have h1 := AddTar_extends W tw v
    rcases ha : AddTar W tw v with ⟨tw1, e⟩
    rw [ha] at h1
    cases e with
    | some e => exact h1
    | none => exact Extends.trans _ _ _ h1 (ih tw1)

/-! ## The shape of the log a command leaves -/

theorem closeAll_none (W : World) (tw : TarWriter) :
    ((closeAll W tw none).1.log = tw.log ∧ (closeAll W tw none).2 ≠ none) ∨
    ((closeAll W tw none).1.log = tw.log ++ [.trailer] ∧ (closeAll W tw none).2 = none) := by
  unfold closeAll TarWriter.Close TarWriter.submit
  cases W.faults tw.log .trailer with
  | some p => left; simp
  | none => right; simp

theorem tarCatfunc_filter_shape (W : World) (fl : MergeFlags) :
    ∀ ev ∈ (tarCatfunc.filter W fl { log := [] }).1.log, ∃ f, ev = Ev.filter f := by
  unfold tarCatfunc.filter NewWriter TarWriter.submit
  split
  · split
    · cases W.faults [] (.filter "xz") <;> simp
    · split
      · cases W.faults [] (.filter "gzip") <;> simp
      · simp
  · simp

theorem tarCatfunc_stdin_extends (W : World) (fl : MergeFlags) (tw : TarWriter) :
    Extends tw (tarCatfunc.stdin W fl tw).1 := by
  unfold tarCatfunc.stdin
  cases OpenTarBuffer W (some W.stdin) fl.inputformat with
  | error e =>
    simp only
    split <;> exact Extends.refl tw
  | ok p =>
    obtain ⟨tr, rc⟩ := p
    simp only
    have h1 := AddTarFromWriter_extends W tw tr rc
    rcases ha : AddTarFromWriter W tw tr rc with ⟨tw1, tr1, rc1, e⟩
    rw [ha] at h1
    cases e with
    | some e => exact h1
    | none => exact h1

/-- The shape of the log `merge` leaves: at most the creation of the
compression writer, then entry operations, then the end-of-archive marker
exactly when the command succeeds. -/
theorem tarCatfunc_shape (W : World) (fl : MergeFlags) (args : List String) :
    ∃ pre extra, (∀ ev ∈ pre, ∃ f, ev = Ev.filter f) ∧ (∀ ev ∈ extra, ev.isCopy = true) ∧
      (((tarCatfunc W fl args).1.log = pre ++ extra ∧ (tarCatfunc W fl args).2 ≠ none) ∨
       ((tarCatfunc W fl args).1.log = pre ++ extra ++ [.trailer] ∧
        (tarCatfunc W fl args).2 = none)) := by
  unfold tarCatfunc
  simp only
  split
  · exact ⟨[], [], by simp, by simp, Or.inl ⟨rfl, by simp⟩⟩
  · split
    · exact ⟨[], [], by simp, by simp, Or.inl ⟨rfl, by simp⟩⟩
    · have hf := tarCatfunc_filter_shape W fl
      rcases hflt : tarCatfunc.filter W fl { log := [] } with ⟨tw1, e1⟩
      rw [hflt] at hf
      cases e1 with
      | some e => exact ⟨tw1.log, [], hf, by simp, Or.inl ⟨by simp, by simp⟩⟩
      | none =>
        simp only
        have hs := tarCatfunc_stdin_extends W fl tw1
        rcases hst : tarCatfunc.stdin W fl tw1 with ⟨tw2, e2⟩
        rw [hst] at hs
        cases e2 with
        | some e =>
          obtain ⟨x, hx, hx2⟩ := hs
          exact ⟨tw1.log, x, hf, hx2, Or.inl ⟨hx, by simp⟩⟩
        | none =>
          simp only
          have ha := tarCatfunc_args_extends W args tw2
          rcases hargs : tarCatfunc.args W args tw2 with ⟨tw3, e3⟩
          rw [hargs] at ha
          obtain ⟨x, hx, hx2⟩ := Extends.trans _ _ _ hs ha
          cases e3 with
          | some e => exact ⟨tw1.log, x, hf, hx2, Or.inl ⟨hx, by simp⟩⟩
          | none =>
            simp only at hx ⊢
            refine ⟨tw1.log, x, hf, hx2, ?_⟩
            rcases closeAll_none W tw3 with h | h
            · left; rw [h.1, hx]; exact ⟨rfl, h.2⟩
            · right; rw [h.1, hx]; exact ⟨rfl, h.2⟩

/-- A run of `merge` that returns an error has not written the end-of-archive
marker. -/
theorem tarCatfunc_error_no_trailer (W : World) (fl : MergeFlags) (args : List String)
    (herr : (tarCatfunc W fl args).2 ≠ none) :
    (tarCatfunc W fl args).1.log.count .trailer = 0 := by
  obtain ⟨p, x, hp, hx, hshape⟩ := tarCatfunc_shape W fl args
  rcases hshape with h | h
  · rw [h.1, List.count_eq_zero]
    intro hmem
    rcases List.mem_append.mp hmem with h1 | h1
    · obtain ⟨f, hf⟩ := hp _ h1
      cases hf
    · have := hx _ h1
      simp [Ev.isCopy] at this
  · exact absurd h.2 herr

/-- The loop of `merge` returns the error of `AddTarFromWriter` on the source
of its first argument. -/
theorem tarCatfunc_args_fails (W : World) (tw : TarWriter) (v : String) (vs : List String)
    (tr : TarReader) (rc : Crdr) (e : Err) (hopen : OpenTarFile W v = .ok (tr, rc))
    (hfail : (AddTarFromWriter W tw tr rc).2.2.2 = some e) :
    tarCatfunc.args W (v :: vs) tw =
      ((AddTarFromWriter W tw tr rc).1,
       some (Errorf ("failed to merge " ++ v ++ ": " ++ e.Error))) := by
  rcases hr : AddTarFromWriter W tw tr rc with ⟨tw1, tr1, rc1, e1⟩
  rw [hr] at hfail
  simp only at hfail
  subst hfail
  simp [tarCatfunc.args, AddTar, hopen, hr]

/-- The loop of `merge` over a list of arguments goes through those it merges
without error and then on to the others. -/
theorem tarCatfunc_args_append (W : World) (done rest : List String) :
    ∀ (tw tw1 : TarWriter), tarCatfunc.args W done tw = (tw1, none) →
      tarCatfunc.args W (done ++ rest) tw = tarCatfunc.args W rest tw1 := by
  induction done with
  | nil =>
    intro tw tw1 h
    simp only [tarCatfunc.args, Prod.mk.injEq, and_true] at h
    subst h
    rfl
  | cons v vs ih =>
    intro tw tw1 h
    rw [tarCatfunc.args] at h
    rw [List.cons_append, tarCatfunc.args]
    rcases ha : AddTar W tw v with ⟨tw2, e2⟩
    rw [ha] at h
    cases e2 with
    | some e => simp at h
    | none => exact ih tw2 tw1 h

/-- The command `merge` returns the error of `AddTarFromWriter` on the source
of an argument, once the output is open, the compression writer chosen, and
the standard input and the arguments before it merged. -/
theorem tarCatfunc_fails_on_arg (W : World) (fl : MergeFlags) (done : List String)
    (v : String) (vs : List String) (out : File) (tw1 tw2 tw3 : TarWriter)
    (tr : TarReader) (rc : Crdr) (e : Err)
    (hout : openOutput W fl.output = .ok out)
    (hfilter : tarCatfunc.filter W fl { log := [] } = (tw1, none))
    (hstdin : tarCatfunc.stdin W fl tw1 = (tw2, none))
    (hdone : tarCatfunc.args W done tw2 = (tw3, none))
    (hopen : OpenTarFile W v = .ok (tr, rc))
    (hfail : (AddTarFromWriter W tw3 tr rc).2.2.2 = some e) :
    tarCatfunc W fl (done ++ v :: vs) =
      ((AddTarFromWriter W tw3 tr rc).1,
       some (Errorf ("failed to merge " ++ v ++ ": " ++ e.Error))) := by
  have hlen : ¬ (done ++ v :: vs).length = 0 := by simp
  unfold tarCatfunc
  simp only [hlen, if_false, hout, hfilter, hstdin,
    tarCatfunc_args_append W done (v :: vs) tw2 tw3 hdone,
    tarCatfunc_args_fails W tw3 v vs tr rc e hopen hfail]

/-- The command `merge` returns the error of `AddTarFromWriter` on the archive
of the standard input, once the output is open and the compression writer
chosen. -/
theorem tarCatfunc_fails_on_stdin (W : World) (fl : MergeFlags) (args : List String)
    (out : File) (tw1 : TarWriter) (tr : TarReader) (rc : Crdr) (e : Err)
    (hargs : args ≠ [])
    (hout : openOutput W fl.output = .ok out)
    (hfilter : tarCatfunc.filter W fl { log := [] } = (tw1, none))
    (hopen : OpenTarBuffer W (some W.stdin) fl.inputformat = .ok (tr, rc))
    (hfail : (AddTarFromWriter W tw1 tr rc).2.2.2 = some e) :
    tarCatfunc W fl args =
      ((AddTarFromWriter W tw1 tr rc).1,
       some (Errorf ("failed to merge input: " ++ e.Error))) := by
  have hlen : ¬ args.length = 0 := by
    intro h
    exact hargs (List.length_eq_zero.mp h)
  rcases hr : AddTarFromWriter W tw1 tr rc with ⟨twa, tra, rca, ea⟩
  rw [hr] at hfail
  simp only at hfail
  subst hfail
  unfold tarCatfunc
  simp only [hlen, if_false, hout, hfilter, tarCatfunc.stdin, hopen, hr]

/-- C10: `AddTarFromWriter` stops at the first error. Let the reader deliver
the entries `pre`, which the output chain accepts, and then `rest`. If `rest`
starts with a read error other than `io.EOF`, or with an entry whose header the
chain refuses, or whose body copy fails (at the chain, or at the reader), the
function returns that error, the log holds the operations of `pre` (and, for
a failed body copy, the header and the bytes that went through), and the
reader stands where the failure left it: nothing after it is read. If `rest` is
empty or starts with `io.EOF`, the loop ends without error and the function
returns what `rc.Close()` returns. When `AddTarFromWriter` returns an error on
the source of an argument of `merge`, or on the archive of its standard
input, the loop of `merge` and the command return that error at once (under
the message `failed to merge ...`), the log is as `AddTarFromWriter` left it,
and it has no end-of-archive marker: `tw.Close()` is not called. -/
theorem AddTarFromWriter_stops_at_first_error (W : World) (tw : TarWriter) (tr : TarReader)
    (rc : Crdr) (pre : List (Header × List Nat)) (rest : List Item)
    (hitems : tr.items = goodItems pre ++ rest) (hacc : accepts W tw.log pre) :
    (∀ e rest1, rest = .fail e :: rest1 → e ≠ .EOF →
      (AddTarFromWriter W tw tr rc).1.log = tw.log ++ entryEvents pre ∧
      (AddTarFromWriter W tw tr rc).2.1.items = rest ∧
      (AddTarFromWriter W tw tr rc).2.2.2 = some e) ∧
    (∀ h b r rest1 k e, rest = .entry h b r :: rest1 →
      W.faults (tw.log ++ entryEvents pre) (.header h) = some (k, e) →
      (AddTarFromWriter W tw tr rc).1.log = tw.log ++ entryEvents pre ∧
      (AddTarFromWriter W tw tr rc).2.1.items = rest1 ∧
      (AddTarFromWriter W tw tr rc).2.2.2 = some e) ∧
    (∀ h b r rest1 k e, rest = .entry h b r :: rest1 →
      W.faults (tw.log ++ entryEvents pre) (.header h) = none →
      W.faults (tw.log ++ entryEvents pre ++ [.header h]) (.body b) = some (k, e) →
      (AddTarFromWriter W tw tr rc).1.log =
        tw.log ++ entryEvents pre ++ [.header h, .cutBody (b.take k)] ∧
      (AddTarFromWriter W tw tr rc).2.1.items = rest1 ∧
      (AddTarFromWriter W tw tr rc).2.2.2 = some e) ∧
    (∀ h b e rest1, rest = .entry h b (some e) :: rest1 → e ≠ .EOF →
      W.faults (tw.log ++ entryEvents pre) (.header h) = none →
      W.faults (tw.log ++ entryEvents pre ++ [.header h]) (.body b) = none →
      (AddTarFromWriter W tw tr rc).1.log =
        tw.log ++ entryEvents pre ++ [.header h, .cutBody b] ∧
      (AddTarFromWriter W tw tr rc).2.1.items = rest1 ∧
      (AddTarFromWriter W tw tr rc).2.2.2 = some e) ∧
    ((rest = [] ∨ ∃ rest1, rest = .fail .EOF :: rest1) →
      (AddTarFromWriter W tw tr rc).1.log = tw.log ++ entryEvents pre ∧
      (AddTarFromWriter W tw tr rc).2.1.items = rest ∧
      (AddTarFromWriter W tw tr rc).2.2.2 = (rc.Close).2) ∧
    (∀ v vs tw1 e, AddTar W tw v = (tw1, some e) →
      tarCatfunc.args W (v :: vs) tw =
        (tw1, some (Errorf ("failed to merge " ++ v ++ ": " ++ e.Error)))) ∧
    (∀ fl args, (tarCatfunc W fl args).2 ≠ none →
      (tarCatfunc W fl args).1.log.count .trailer = 0) ∧
    (∀ v vs e, OpenTarFile W v = .ok (tr, rc) →
      (AddTarFromWriter W tw tr rc).2.2.2 = some e →
      tarCatfunc.args W (v :: vs) tw =
        ((AddTarFromWriter W tw tr rc).1,
         some (Errorf ("failed to merge " ++ v ++ ": " ++ e.Error)))) ∧
    (∀ fl done v vs out tw1 tw2 tw3 tr1 rc1 e,
      openOutput W fl.output = .ok out →
      tarCatfunc.filter W fl { log := [] } = (tw1, none) →
      tarCatfunc.stdin W fl tw1 = (tw2, none) →
      tarCatfunc.args W done tw2 = (tw3, none) →
      OpenTarFile W v = .ok (tr1, rc1) →
      (AddTarFromWriter W tw3 tr1 rc1).2.2.2 = some e →
      tarCatfunc W fl (done ++ v :: vs) =
        ((AddTarFromWriter W tw3 tr1 rc1).1,
         some (Errorf ("failed to merge " ++ v ++ ": " ++ e.Error))) ∧
      (tarCatfunc W fl (done ++ v :: vs)).1.log.count .trailer = 0) ∧
    (∀ fl args out tw1 tr1 rc1 e, args ≠ [] →
      openOutput W fl.output = .ok out →
      tarCatfunc.filter W fl { log := [] } = (tw1, none) →
      OpenTarBuffer W (some W.stdin) fl.inputformat = .ok (tr1, rc1) →
      (AddTarFromWriter W tw1 tr1 rc1).2.2.2 = some e →
      tarCatfunc W fl args =
        ((AddTarFromWriter W tw1 tr1 rc1).1,
         some (Errorf ("failed to merge input: " ++ e.Error))) ∧
      (tarCatfunc W fl args).1.log.count .trailer = 0) := by
  obtain ⟨c, hc⟩ := AddTarFromWriter_split W tw tr rc pre rest hitems hacc
  refine ⟨?_, ?_, ?_, ?_, ?_, ?_, ?_, ?_, ?_, ?_⟩
  · intro e rest1 hr he
    subst hr
    rw [hc]
    simp [AddTarFromWriter.loop, TarReader.Next, he]
  · intro h b r rest1 k e hr hf
    subst hr
    rw [hc]
    simp [AddTarFromWriter.loop, TarReader.Next, appendPart, TarWriter.WriteHeader,
      TarWriter.submit, hf]
  · intro h b r rest1 k e hr hf hb
    subst hr
    rw [hc]
    simp only [List.append_assoc] at hb
    simp [AddTarFromWriter.loop, TarReader.Next, appendPart, TarWriter.WriteHeader,
      TarWriter.submit, hf, TarWriter.Copy, hb]
  · intro h b e rest1 hr he hf hb
    subst hr
    rw [hc]
    have hce : copyErr (some e) = some e := by
      cases e with
      | EOF => exact absurd rfl he
      | other m => rfl
    simp only [List.append_assoc] at hb
    simp [AddTarFromWriter.loop, TarReader.Next, appendPart, TarWriter.WriteHeader,
      TarWriter.submit, hf, TarWriter.Copy, hb, hce]
  · intro hr
    rw [hc]
    rcases hr with hr | ⟨rest1, hr⟩
    · subst hr
      simp [AddTarFromWriter.loop, TarReader.Next]
    · subst hr
      simp [AddTarFromWriter.loop, TarReader.Next]
  · intro v vs tw1 e ha
    simp [tarCatfunc.args, ha]
  · intro fl args herr
    exact tarCatfunc_error_no_trailer W fl args herr
  · intro v vs e hopen hfail
    exact tarCatfunc_args_fails W tw v vs tr rc e hopen hfail
  · intro fl done v vs out tw1 tw2 tw3 tr1 rc1 e hout hfilter hstdin hdone hopen hfail
    have h := tarCatfunc_fails_on_arg W fl done v vs out tw1 tw2 tw3 tr1 rc1 e
      hout hfilter hstdin hdone hopen hfail
    refine ⟨h, tarCatfunc_error_no_trailer W fl _ ?_⟩
    rw [h]
    simp
  · intro fl args out tw1 tr1 rc1 e hargs hout hfilter hopen hfail
    have h := tarCatfunc_fails_on_stdin W fl args out tw1 tr1 rc1 e hargs hout hfilter
      hopen hfail
    refine ⟨h, tarCatfunc_error_no_trailer W fl _ ?_⟩
    rw [h]
    simp

theorem AddTarFromWriter_stops_at_first_error_witness :
    ((AddTarFromWriter faultyWorld { log := [] } demoReader demoCrdr).1.log =
        [.header ⟨"a", 1, 420, ""⟩, .body [1]] ∧
      (AddTarFromWriter faultyWorld { log := [] } demoReader demoCrdr).2.1.items =
        [.entry ⟨"c", 1, 420, ""⟩ [3] none] ∧
      (AddTarFromWriter faultyWorld { log := [] } demoReader demoCrdr).2.2.2 =
        some (.other "short write")) ∧
    (tarCatfunc faultyMergeWorld ⟨false, "xz", "xz", "out.tar"⟩
        ["one.xz", "bad.xz", "two.xz"] =
      ({ log := [.header ⟨"a", 1, 420, ""⟩, .body [97], .header ⟨"p", 1, 420, ""⟩,
                 .body [112], .header ⟨"a", 1, 420, ""⟩, .body [97]] },
       some (.other "failed to merge bad.xz: short write"))) :=
  ⟨(AddTarFromWriter_stops_at_first_error faultyWorld { log := [] } demoReader demoCrdr
      [(⟨"a", 1, 420, ""⟩, [1])]
      [.entry ⟨"x", 1, 420, ""⟩ [2] none, .entry ⟨"c", 1, 420, ""⟩ [3] none]
      rfl ⟨rfl, rfl, trivial⟩).2.1
      ⟨"x", 1, 420, ""⟩ [2] none [.entry ⟨"c", 1, 420, ""⟩ [3] none] 0 (.other "short write")
      rfl rfl,
   ((AddTarFromWriter_stops_at_first_error faultyMergeWorld { log := [] } demoReader demoCrdr
      [(⟨"a", 1, 420, ""⟩, [1])]
      [.entry ⟨"x", 1, 420, ""⟩ [2] none, .entry ⟨"c", 1, 420, ""⟩ [3] none]
      rfl ⟨rfl, rfl, trivial⟩).2.2.2.2.2.2.2.2.1
      ⟨false, "xz", "xz", "out.tar"⟩ ["one.xz"] "bad.xz" ["two.xz"]
      { name := "out.tar", data := [], pos := 0, mode := 438, seekable := true,
        closed := false }
      { log := [] } { log := [.header ⟨"a", 1, 420, ""⟩, .body [97]] }
      { log := [.header ⟨"a", 1, 420, ""⟩, .body [97], .header ⟨"p", 1, 420, ""⟩,
                .body [112]] }
      (demoSource "bad.xz" [97, 120, 99]).1 (demoSource "bad.xz" [97, 120, 99]).2
      (.other "short write") rfl rfl rfl rfl rfl rfl).1⟩

/-! ## Merging whole sources -/

theorem AddTarFromWriter_good (W : World) (hsink : ∀ log ev, W.faults log ev = none)
    (tw : TarWriter) (s : Source) (es : List (Header × List Nat)) (hy : s.yields es) :
    (AddTarFromWriter W tw s.1 s.2).1 = { log := tw.log ++ entryEvents es } ∧
    (AddTarFromWriter W tw s.1 s.2).2.2.2 = none := by
  obtain ⟨hi, hcl⟩ := hy
  obtain ⟨c, hc⟩ := AddTarFromWriter_split W tw s.1 s.2 es [] (by simpa using hi)
    (accepts_of_no_fault W hsink _ _)
  rw [hc]
  simp [AddTarFromWriter.loop, TarReader.Next, Crdr.Close, File.Close, hcl]

/-- C1: when no output operation fails, and the arguments of `merge` open as
sources that each deliver a finite sequence of entries, whole, the loop of
`merge` (`AddTar`, that is `AddTarFromWriter` on each source, in the order of
the arguments) succeeds and adds to the log exactly the headers and bodies of
the concatenation of the sequences: for each entry its header, then its whole
body, in order. -/
theorem merge_writes_concatenation (W : World) (hsink : ∀ log ev, W.faults log ev = none)
    (args : List String) (srcs : List Source) (ess : List (List (Header × List Nat)))
    (tw : TarWriter)
    (hopen : List.Forall₂ (fun v s => OpenTarFile W v = .ok s) args srcs)
    (hyield : List.Forall₂ (fun s es => Source.yields s es) srcs ess) :
    tarCatfunc.args W args tw =
      ({ log := tw.log ++ entryEvents (concatEntries ess) }, none) := by
  induction hopen generalizing ess tw with
  | nil =>
    cases hyield
    simp [tarCatfunc.args, concatEntries, entryEvents]
  | cons hv _ ih =>
    cases hyield with
    | cons hy hys =>
      obtain ⟨h1, h2⟩ := AddTarFromWriter_good W hsink tw _ _ hy
      rw [tarCatfunc.args]
      simp only [AddTar, hv]
      rcases hr : AddTarFromWriter W tw _ _ with ⟨tw1, tr1, rc1, e1⟩
      rw [hr] at h1 h2
      simp only at h1 h2
      subst h1 h2
      simp only
      rw [ih _ _ hys]
      simp [concatEntries, entryEvents_append]

theorem merge_writes_concatenation_witness :
    tarCatfunc.args demoWorld ["one.xz", "two.xz"] { log := [] } =
      ({ log := [.header ⟨"p", 1, 420, ""⟩, .body [112], .header ⟨"q", 1, 420, ""⟩, .body [113],
                 .header ⟨"r", 1, 420, ""⟩, .body [114]] }, none) :=
  merge_writes_concatenation demoWorld (fun _ _ => rfl) ["one.xz", "two.xz"]
    [demoSource "one.xz" [112], demoSource "two.xz" [113, 114]]
    [[(⟨"p", 1, 420, ""⟩, [112])], [(⟨"q", 1, 420, ""⟩, [113]), (⟨"r", 1, 420, ""⟩, [114])]]
    { log := [] }
    (.cons rfl (.cons rfl .nil))
    (.cons ⟨rfl, rfl⟩ (.cons ⟨rfl, rfl⟩ .nil))

/-! ## The copy loop of `add` -/

/-- The loop of `AddTarFromBuffer` takes the entries the chain accepts one by
one, like the loop of `AddTarFromWriter`. -/
theorem bufferLoop_good (W : World) (pre : List (Header × List Nat)) :
    ∀ (n : Nat) (tw : TarWriter) (tr : TarReader) (rest : List Item),
      tr.items = goodItems pre ++ rest → accepts W tw.log pre →
      ∃ c, AddTarFromBuffer.loop W (pre.length + n) tw tr =
        AddTarFromBuffer.loop W n { log := tw.log ++ entryEvents pre }
          { tr with items := rest, cur := c } := by
  induction pre with
  | nil =>
    intro n tw tr rest hit _
    refine ⟨tr.cur, ?_⟩
    simp only [goodItems, List.nil_append] at hit
    simp [entryEvents, ← hit]
  | cons x xs ih =>
    obtain ⟨h, b⟩ := x
    intro n tw tr rest hit hacc
    obtain ⟨h1, h2, h3⟩ := hacc
    obtain ⟨c, hc⟩ := ih n { log := tw.log ++ [.header h, .body b] }
      { tr with items := goodItems xs ++ rest, cur := ⟨b, none⟩ } rest rfl h3
    refine ⟨c, ?_⟩
    have hlen : (((h, b) :: xs).length + n) = (xs.length + n) + 1 := by
      simp only [List.length_cons]; omega
    rw [hlen, AddTarFromBuffer.loop]
    simp only [TarReader.Next, hit, goodItems, List.cons_append,
      TarWriter.WriteHeader, TarWriter.submit, h1, TarWriter.Copy, h2, copyErr]
    simp only [List.append_assoc, List.singleton_append] at hc ⊢
    rw [hc]
    simp [entryEvents]

/-- C2 (what the code does): let the reader deliver the entries `pre`, which
the output chain accepts, and then an entry whose header the chain refuses, or
whose body copy fails at the chain or at the reader. `AddTarFromBuffer` then
returns `nil`, where C2 wants the error: the `err` its loop assigns in these
cases is a variable of the loop body, and the function's own `err` is still
the `nil` of `tr.Next()`. -/
theorem AddTarFromBuffer_returns_nil_on_write_error (W : World) (tw : TarWriter)
    (tr : TarReader) (rc : Crdr) (pre : List (Header × List Nat)) (h : Header)
    (b : List Nat) (r : Option Err) (rest : List Item) (k : Nat) (e : Err)
    (hitems : tr.items = goodItems pre ++ .entry h b r :: rest)
    (hacc : accepts W tw.log pre) (hrc : rc.fin.closed = false)
    (hfail : W.faults (tw.log ++ entryEvents pre) (.header h) = some (k, e) ∨
      (W.faults (tw.log ++ entryEvents pre) (.header h) = none ∧
        W.faults (tw.log ++ entryEvents pre ++ [.header h]) (.body b) = some (k, e)) ∨
      (W.faults (tw.log ++ entryEvents pre) (.header h) = none ∧
        W.faults (tw.log ++ entryEvents pre ++ [.header h]) (.body b) = none ∧
        r = some e ∧ e ≠ .EOF)) :
    (AddTarFromBuffer W tw tr rc).2.2.2 = none ∧
    (AddTarFromBuffer W tw tr rc).2.1.items = rest := by
  obtain ⟨c, hc⟩ := bufferLoop_good W pre (rest.length + 1 + 1) tw tr _ hitems hacc
  have hlen : tr.items.length + 1 = pre.length + (rest.length + 1 + 1) := by
    rw [hitems, List.length_append, goodItems_length, List.length_cons]; omega
  unfold AddTarFromBuffer
  rw [hlen, hc]
  rcases hfail with hf | ⟨hf, hb⟩ | ⟨hf, hb, hr, he⟩
  · simp [AddTarFromBuffer.loop, TarReader.Next, TarWriter.WriteHeader,
      TarWriter.submit, hf, Crdr.Close, File.Close, hrc]
  · simp only [List.append_assoc] at hb
    simp [AddTarFromBuffer.loop, TarReader.Next, TarWriter.WriteHeader,
      TarWriter.submit, hf, TarWriter.Copy, hb, Crdr.Close, File.Close, hrc]
  · have hce : copyErr (some e) = some e := by
      cases e with
      | EOF => exact absurd rfl he
      | other m => rfl
    subst hr
    simp only [List.append_assoc] at hb
    simp [AddTarFromBuffer.loop, TarReader.Next, TarWriter.WriteHeader,
      TarWriter.submit, hf, TarWriter.Copy, hb, hce, Crdr.Close, File.Close, hrc]

theorem AddTarFromBuffer_returns_nil_on_write_error_witness :
    (AddTarFromBuffer faultyWorld { log := [] } demoReader demoCrdr).2.2.2 = none ∧
    (AddTarFromBuffer faultyWorld { log := [] } demoReader demoCrdr).2.1.items =
      [.entry ⟨"c", 1, 420, ""⟩ [3] none] :=
  AddTarFromBuffer_returns_nil_on_write_error faultyWorld { log := [] } demoReader demoCrdr
    [(⟨"a", 1, 420, ""⟩, [1])] ⟨"x", 1, 420, ""⟩ [2] none
    [.entry ⟨"c", 1, 420, ""⟩ [3] none] 0 (.other "short write")
    rfl ⟨rfl, rfl, trivial⟩ rfl (Or.inl rfl)

/-! ## The format hint -/

/-- C3 (what the code does): with the hint `none`, `GetReader` does not sniff,
and it reads the file through `xz.NewReader`: the stream it returns is what
the xz reader makes of the file's bytes, and when the xz reader refuses them
it fails. So it is for the uncompressed archive of `demoWorld`. -/
theorem GetReader_none_uses_xz :
    (∀ (W : World) (fin : File),
      GetReader W (some fin) "none" =
        match fin.Stat with
        | .error e => .error e
        | .ok fi =>
          match W.unxz fin.rest with
          | .error e => .error (Errorf ("error opening " ++ fin.name ++ " " ++ e.Error))
          | .ok r => .ok ({ items := W.untar r, cur := ⟨[], none⟩, Info := fi },
                          { Reader := r, fin := fin })) ∧
    GetReader demoWorld (some (File.ofBytes "in.tar" demoArchive)) "none" =
      .error (.other "error opening in.tar xz: invalid header magic bytes") := by
  refine ⟨?_, rfl⟩
  intro W fin
  have h1 : GetCTFromFormat "none" = TarCT := rfl
  have h2 : TarCT ≠ GzipCT := by decide
  have h3 : ("none" : String) ≠ "" := by decide
  simp only [GetReader]
  cases fin.Stat with
  | error e => rfl
  | ok fi =>
    simp only [h1, NewCrdr, h2, h3, ne_eq, not_false_eq_true, if_false, if_true]
    cases W.unxz fin.rest with
    | error e => rfl
    | ok r => rfl

/-! ## Plain files -/

/-- C4 (what the code does): for a plain file (not empty, not sniffed as gzip,
and, when sniffed as binary data, with an extension other than `.xz` and
`.tar`) whose header and body the output chain accepts, `AddFile` writes one
entry: its size, mode and body are the file's, and its name is the base name
of the file whatever the directory given, because `appendFile` passes
`directory + fi.Name()` to `tar.FileInfoHeader` as the link target, which a
regular file does not have. -/
theorem AddFile_plain_entry (W : World) (tw : TarWriter) (pth directory : String)
    (node : Node) (hfs : W.fs pth = some node) (hne : node.data ≠ [])
    (hplain : W.detect (sniffBuffer (node.data.take 512)) ≠ GzipCT ∧
      (W.detect (sniffBuffer (node.data.take 512)) = TarCT →
        Ext pth ≠ ".xz" ∧ Ext pth ≠ ".tar"))
    (hh : W.faults tw.log (.header ⟨baseName pth, node.data.length, node.mode, ""⟩) = none)
    (hb : W.faults (tw.log ++ [.header ⟨baseName pth, node.data.length, node.mode, ""⟩])
      (.body node.data) = none) :
    AddFile W tw pth directory =
      ({ log := tw.log ++ [.header ⟨baseName pth, node.data.length, node.mode, ""⟩,
                           .body node.data] }, none) := by
  obtain ⟨hgz, htar⟩ := hplain
  have hlen : 0 < node.data.length := List.length_pos.mpr hne
  have hrc := ReadContentType_ok W
    { name := pth, data := node.data, pos := 0, mode := node.mode, seekable := true,
      closed := false } rfl rfl hlen
  have hbuf : AddFileFromBuffer W tw
      { name := pth, data := node.data, pos := 0, mode := node.mode, seekable := true,
        closed := false }
      { name := baseName pth, size := node.data.length, mode := node.mode, symlink := false }
      directory =
      ({ log := tw.log ++ [.header ⟨baseName pth, node.data.length, node.mode, ""⟩,
                           .body node.data] }, none) := by
    simp [AddFileFromBuffer, appendFile, FileInfoHeader, TarWriter.WriteHeader,
      TarWriter.submit, hh, TarWriter.Copy, File.stream, File.rest, hb, copyErr, File.Close]
  unfold AddFile
  simp only [osStat, osOpen, hfs, hrc, List.drop_zero]
  rw [if_neg hgz]
  by_cases hct : W.detect (sniffBuffer (node.data.take 512)) = TarCT
  · rw [if_pos hct, if_pos (htar hct)]
    exact hbuf
  · rw [if_neg hct]
    exact hbuf

theorem AddFile_plain_entry_witness :
    AddFile demoWorld { log := [] } "a.txt" "dir/" =
      ({ log := [.header ⟨"a.txt", 2, 420, ""⟩, .body [104, 105]] }, none) :=
  AddFile_plain_entry demoWorld { log := [] } "a.txt" "dir/" ⟨420, [104, 105]⟩ rfl
    (by decide) ⟨by decide, fun _ => ⟨by decide, by decide⟩⟩ rfl rfl

/-! ## Closing the compression writer -/

/-- C5 (what the code does): no run of `merge` closes the compression writer,
and there are successful runs with compressed output: in `stdinWorld`, with
format `xz`, the log ends with the end-of-archive marker of `tw.Close()`. The
`cout` that `tarCatfunc` tests before `cout.Close()` is not the one its
`switch` assigns. -/
theorem tarCatfunc_never_finalizes :
    (∀ (W : World) (fl : MergeFlags) (args : List String),
      (tarCatfunc W fl args).1.log.count .finalize = 0) ∧
    tarCatfunc stdinWorld ⟨true, "xz", "xz", "out.tar.xz"⟩ ["one.xz"] =
      ({ log := [.filter "xz", .header ⟨"a", 1, 420, ""⟩, .body [97],
                 .header ⟨"p", 1, 420, ""⟩, .body [112], .trailer] }, none) := by
  refine ⟨?_, rfl⟩
  intro W fl args
  obtain ⟨p, x, hp, hx, hshape⟩ := tarCatfunc_shape W fl args
  have hnot : Ev.finalize ∉ p ++ x := by
    intro hmem
    rcases List.mem_append.mp hmem with h1 | h1
    · obtain ⟨f, hf⟩ := hp _ h1
      cases hf
    · have := hx _ h1
      simp [Ev.isCopy] at this
  rcases hshape with h | h
  · rw [h.1]
    exact List.count_eq_zero.mpr hnot
  · rw [h.1, List.count_append, List.count_eq_zero.mpr hnot]
    rfl

/-- The same run through `add`: the compression writer is closed once, after
the end-of-archive marker. -/
theorem tarAddFunc_finalizes :
    tarAddFunc demoWorld ⟨"b.txt", "out.tar.xz", "xz", "", ""⟩ ["a.txt"] =
      ({ log := [.filter "xz", .header ⟨"a.txt", 2, 420, ""⟩, .body [104, 105],
                 .header ⟨"b.txt", 1, 420, ""⟩, .body [33], .trailer, .finalize] }, none) := by
  rfl

/-! ## Appending -/

theorem demoArchive_length : demoArchive.length = 1536 := by
  simp only [demoArchive, List.length_append, List.length_replicate]

theorem demoArchive_sniffed :
    demoWorld.detect (sniffBuffer (demoArchive.take 512)) = TarCT := by
  have h : (sniffBuffer (demoArchive.take 512)).take 3 = [97, 97, 97] := by decide
  show (if (sniffBuffer (demoArchive.take 512)).take 3 = [31, 139, 8] then GzipCT else TarCT)
    = TarCT
  rw [h]
  rfl

/-- What `GetSeekedTar` makes of the archive `in.tar` of `demoWorld`, for
the window of `append`. -/
theorem GetSeekedTar_demo (name : String) :
    GetSeekedTar demoWorld
      { name := "in.tar", data := demoArchive, pos := 0, mode := 420, seekable := true,
        closed := false }
      { name := name, data := [], pos := 0, mode := 438, seekable := true, closed := false }
      (-1024) =
    .ok { name := name, data := demoArchive, pos := 512, mode := 438, seekable := true,
          closed := false } := by
  have hne : demoArchive ≠ [] := by
    intro h
    have := demoArchive_length
    rw [h] at this
    cases this
  rw [GetSeekedTar_eq demoWorld _ _ (-1024) (by decide) ⟨rfl, rfl, rfl⟩ hne ⟨rfl, rfl, rfl, rfl⟩]
  have ho : demoWorld.openErr name = none := rfl
  simp only [demoArchive_sniffed, ho]
  have hext : Ext "in.tar" = ".tar" := by decide
  have h1 : TarCT ≠ GzipCT := by decide
  have h2 : (".tar" : String) ≠ ".xz" := by decide
  simp only [seekedReader, hext, h1, h2, if_false, if_true, ne_eq, not_false_eq_true,
    File.rest, List.drop_zero, copyErr, demoArchive_length]
  rfl

/-- The command `append` once its input is open and decoded to the
destination. -/
theorem tarAppendfunc_eq (W : World) (fl : AppendFlags) (args : List String)
    (out0 inF outF : File) (hargs : args ≠ []) (hin : fl.input ≠ "")
    (h1 : openOutput W fl.output = .ok out0) (h2 : osOpen W fl.input = .ok inF)
    (h3 : GetSeekedTar W inF out0 (-1024) = .ok outF) :
    tarAppendfunc W fl args =
      match selectFilter W { log := [] } fl.format with
      | (tw, _, some e) => (some outF, tw, some e)
      | (tw, cout, none) =>
        match addArgs W fl.directory args tw with
        | (tw, some e) => (some outF, tw, some e)
        | (tw, none) =>
          match closeAll W tw cout with
          | (tw, err) => (some outF, tw, err) := by
  have h0 : ¬ args.length = 0 := by
    intro h
    exact hargs (List.length_eq_zero.mp h)
  unfold tarAppendfunc
  simp only [h0, hin, if_false, Bool.false_and, Bool.false_eq_true, decide_False, h1, h2, h3]

/-- C6 (what the code does): `append` with format `xz` on the uncompressed
archive `in.tar` of `demoWorld` (1536 bytes, the last 1024 of them the
end-of-archive marker). The command succeeds; the destination holds the bytes
of the input, uncompressed, and the xz writer is created over it at offset
512: the file starts with the first block of the old archive as it was, and
the xz stream of the new entry follows it. -/
theorem tarAppendfunc_xz_after_raw_head :
    tarAppendfunc demoWorld ⟨"in.tar", "out.tar.xz", "xz", ""⟩ ["b.txt"] =
      (some { name := "out.tar.xz", data := demoArchive, pos := 512, mode := 438,
              seekable := true, closed := false },
       { log := [.filter "xz", .header ⟨"b.txt", 1, 420, ""⟩, .body [33], .trailer,
                 .finalize] },
       none) := by
  rw [tarAppendfunc_eq demoWorld ⟨"in.tar", "out.tar.xz", "xz", ""⟩ ["b.txt"] _ _ _
    (by simp) (by decide) (by rfl) (by rfl) (GetSeekedTar_demo "out.tar.xz")]
  rfl

/-! ## Unknown formats -/

theorem selectFilter_other (W : World) (tw : TarWriter) (format : String)
    (h1 : format ≠ "xz") (h2 : format ≠ "gzip") :
    selectFilter W tw format = (tw, none, none) := by
  simp [selectFilter, h1, h2]

/-- C7 (what the code does): with the format `zip`, `add` and `append` do not
fail: their `switch format` has no `default` case, so they go on without a
compression writer and write the archive; `merge`, whose `switch` has one,
fails before any operation on the output. -/
theorem add_append_accept_unknown_format :
    tarAddFunc demoWorld ⟨"b.txt", "out.tar", "zip", "", ""⟩ ["a.txt"] =
      ({ log := [.header ⟨"a.txt", 2, 420, ""⟩, .body [104, 105],
                 .header ⟨"b.txt", 1, 420, ""⟩, .body [33], .trailer] }, none) ∧
    tarAppendfunc demoWorld ⟨"in.tar", "out.tar", "zip", ""⟩ ["b.txt"] =
      (some { name := "out.tar", data := demoArchive, pos := 512, mode := 438,
              seekable := true, closed := false },
       { log := [.header ⟨"b.txt", 1, 420, ""⟩, .body [33], .trailer] }, none) ∧
    tarCatfunc stdinWorld ⟨true, "zip", "xz", "out.tar"⟩ ["one.xz"] =
      ({ log := [] }, some (.other "compression format not available: zip")) := by
  refine ⟨rfl, ?_, rfl⟩
  rw [tarAppendfunc_eq demoWorld ⟨"in.tar", "out.tar", "zip", ""⟩ ["b.txt"] _ _ _
    (by simp) (by decide) (by rfl) (by rfl) (GetSeekedTar_demo "out.tar")]
  rfl

end TarCat
